import Mathlib

/-!
# Verification of django-query-string-parser

Shallow embedding of `src/django_query_parser/parser.py`: the Lark grammar
`QUERY_GRAMMAR` (embedded as a fueled recursive-descent parser over the same
three-level grammar with the same contextual tokenization), the
`QueryTranslator` transformer (value coercion `_clean_value`, operator map,
whitelist check), the Django `Q` combination semantics the transformer relies
on (`django.db.models.Q`, i.e. `django.utils.tree.Node`: binary `&`/`|`
combination with child squashing, `~` negation flag), and the public
`DjangoQueryParser.parse` entry point with its error wrapping.

Modelling conventions:
* characters are restricted to the ASCII fragment (the regex classes `\w` and
  `\s` are modelled by their ASCII parts, which covers every input any claim
  mentions);
* a Python `float` value is represented abstractly by the raw text it was
  parsed from (`Value.float`); no claim compares floating point values;
* Lark's diagnostic messages for lexer/parser failures are abstracted into a
  single `Err.unexpectedInput`; the field-not-allowed and unsupported-operator
  messages raised by the repository's own code are reproduced verbatim.
-/

namespace DjangoQueryParser

/-- Single-quote character, built from its code point so that the source text
stays free of bare apostrophes. -/
def sq : String := String.singleton (Char.ofNat 39)

/-- Coerced value produced by `QueryTranslator._clean_value`: Python
`str`/`int`/`float`/`bool`/`None`.  A float is represented by the raw text the
code passed to Python `float(...)`. -/
inductive Value where
  | str (s : String)
  | int (n : Int)
  | float (raw : String)
  | bool (b : Bool)
  | null
  deriving DecidableEq, Repr

/-- ASCII whitespace, the ASCII fragment of the regex class `\s` (and of the
set stripped by Python `int(...)`/`float(...)` around a numeric literal). -/
def isWsChar (c : Char) : Bool :=
  c = ' ' || c = '\t' || c = '\n' || c = '\r' || c = '\x0b' || c = '\x0c'

/-- ASCII fragment of the regex class `\w` used by the terminals `FIELD` and
`UNQUOTED_VALUE`. -/
def isWordChar (c : Char) : Bool :=
  c.isAlpha || c.isDigit || c = '_'

/-- Strip leading and trailing ASCII whitespace (Python number-literal
parsing strips surrounding whitespace). -/
def trimWsChars (cs : List Char) : List Char :=
  ((cs.dropWhile isWsChar).reverse.dropWhile isWsChar).reverse

/-- Numeric value of an ASCII digit. -/
def digitVal (c : Char) : Nat := c.toNat - 48

/-- Consume the remainder of a Python `digitpart`
(`digit (["_"] digit)*`), accumulating its numeric value.  Fails on a
trailing or doubled underscore, exactly like Python `int(...)`. -/
def digitpartTail (acc : Nat) : List Char → Option Nat
  | [] => some acc
  | '_' :: c :: rest =>
      if c.isDigit then digitpartTail (acc * 10 + digitVal c) rest else none
  | ['_'] => none
  | c :: rest =>
      if c.isDigit then digitpartTail (acc * 10 + digitVal c) rest else none

/-- Numeric value of a complete Python `digitpart`, or `none` if the
character list is not exactly one digitpart. -/
def digitpartVal : List Char → Option Nat
  | c :: rest => if c.isDigit then digitpartTail (digitVal c) rest else none
  | [] => none

/-- Python `int(text)` on a string: optional surrounding whitespace, optional
sign, then one digitpart (underscores allowed between digits). -/
def pyInt (s : String) : Option Int :=
  match trimWsChars s.data with
  | '+' :: rest => (digitpartVal rest).map (fun n => (n : Int))
  | '-' :: rest => (digitpartVal rest).map (fun n => -(n : Int))
  | cs => (digitpartVal cs).map (fun n => (n : Int))

/-- Consume a maximal run of further `digitpart` characters (digits with
single underscores between them), leaving the rest. -/
def dpTail : List Char → List Char
  | '_' :: c :: rest => if c.isDigit then dpTail rest else '_' :: c :: rest
  | c :: rest => if c.isDigit then dpTail rest else c :: rest
  | [] => []

/-- Accept the optional exponent suffix of a Python float literal followed by
end of input: empty, or `(e|E) [+-] digitpart`. -/
def expTailOK : List Char → Bool
  | [] => true
  | e :: r =>
      if e = 'e' || e = 'E' then
        let r1 := match r with
          | '+' :: rr => rr
          | '-' :: rr => rr
          | rr => rr
        match r1 with
        | d :: dr => d.isDigit && dpTail dr = []
        | [] => false
      else false

/-- Accept an unsigned Python float literal body (`pointfloat`,
`exponentfloat` or a plain digitpart) consuming the whole input. -/
def floatNumberOK : List Char → Bool
  | c :: rest =>
      if c.isDigit then
        let r1 := dpTail rest
        match r1 with
        | '.' :: r2 =>
            -- optional fractional digitpart, then the optional exponent
            match r2 with
            | d :: dr => if d.isDigit then expTailOK (dpTail dr) else expTailOK r2
            | [] => true
        | rr => expTailOK rr
      else if c = '.' then
        match rest with
        | d :: dr => if d.isDigit then expTailOK (dpTail dr) else false
        | [] => false
      else false
  | [] => false

/-- Python `float(text)` succeeds: optional whitespace and sign, then a float
literal body or one of the words `inf`/`infinity`/`nan` (case-insensitive). -/
def pyFloatOK (s : String) : Bool :=
  let cs := trimWsChars s.data
  let cs1 := match cs with
    | '+' :: r => r
    | '-' :: r => r
    | r => r
  let lower := cs1.map Char.toLower
  if lower = "inf".data || lower = "infinity".data || lower = "nan".data then
    true
  else
    floatNumberOK cs1

/-- Python `text.strip(chr(34))`: drop every leading and trailing
double-quote character. -/
def stripQuotes (s : String) : String :=
  ⟨((s.data.dropWhile (fun c => c = '"')).reverse.dropWhile
      (fun c => c = '"')).reverse⟩

/-- Python `text.startswith(chr(34))`. -/
def firstIsQuote (s : String) : Bool :=
  match s.data with
  | c :: _ => c = '"'
  | [] => false

/-- Python `text.endswith(chr(34))`. -/
def lastIsQuote (s : String) : Bool :=
  match s.data.getLast? with
  | some c => c = '"'
  | none => false

/-- Python `text.lower()` (ASCII fragment). -/
def lowerStr (s : String) : String := ⟨s.data.map Char.toLower⟩

/-- Python `text.replace(p1 ++ p2, r)` for a two-character pattern:
left-to-right scan replacing non-overlapping occurrences. -/
def replace2 (p1 p2 r : Char) : List Char → List Char
  | x :: y :: rest =>
      if x = p1 && y = p2 then r :: replace2 p1 p2 r rest
      else x :: replace2 p1 p2 r (y :: rest)
  | l => l

/-- The escape replacement of the fallback branch of `_clean_value`:
`raw.replace("\\n", "\n").replace("\\t", "\t")`. -/
def unescape (s : String) : String :=
  ⟨replace2 '\\' 't' '\t' (replace2 '\\' 'n' '\n' s.data)⟩

/-- `QueryTranslator._clean_value`: quoted strings are stripped of quote
characters (and nothing else); otherwise `true`/`false`/`null`
(case-insensitive), then Python `int`, then Python `float`, then the raw
string with `\n`/`\t` unescaped. -/
def cleanValue (raw : String) : Value :=
  if firstIsQuote raw && lastIsQuote raw then
    .str (stripQuotes raw)
  else if lowerStr raw = "true" then .bool true
  else if lowerStr raw = "false" then .bool false
  else if lowerStr raw = "null" then .null
  else
    match pyInt raw with
    | some n => .int n
    | none => if pyFloatOK raw then .float raw else .str (unescape raw)

/-- Connector of a `django.utils.tree.Node` (`Q.AND` / `Q.OR`). -/
inductive Conn where
  | and_
  | or_
  deriving DecidableEq, Repr

/-- A Django `Q` object, i.e. a `django.utils.tree.Node`: either a leaf
condition `(lookup, value)` keyword pair, or a node with a connector, a
negation flag and an ordered children list.  A `Q` built by the code is
always a `node`; `cond` only occurs among children. -/
inductive QTree where
  | cond (lookup : String) (value : Value)
  | node (connector : Conn) (negated : Bool) (children : List QTree)
  deriving Repr

/-- The empty `Q()` object: connector `AND`, no children, not negated. -/
def qEmpty : QTree := .node .and_ false []

/-- `Q(**{lookup: value})` with a single keyword argument. -/
def qSingle (lookup : String) (v : Value) : QTree :=
  .node .and_ false [.cond lookup v]

/-- Python truthiness of a `Q` (`Node.__bool__`: whether the children list is
non-empty). -/
def qBool : QTree → Bool
  | .node _ _ ch => !ch.isEmpty
  | .cond _ _ => true

/-- `Node.add(data, conn)` on a freshly created node whose connector is
already `conn` (the only way `_combine` uses it, Django 4.x): a non-negated
node with the same connector or a single child is squashed into the children
list, anything else is appended. -/
def qAdd (conn : Conn) (acc : List QTree) (data : QTree) : List QTree :=
  match data with
  | .node dconn dneg dch =>
      if !dneg && (dconn = conn || dch.length = 1) then acc ++ dch
      else acc ++ [data]
  | .cond l v => acc ++ [.cond l v]

/-- `Q._combine(other, conn)`, the meaning of `q1 & q2` and `q1 | q2`: an
empty operand yields (a copy of) the other operand, otherwise a fresh node
with connector `conn` into which both operands are added. -/
def qCombine (conn : Conn) (a b : QTree) : QTree :=
  if !qBool a then b
  else if !qBool b then a
  else .node conn false (qAdd conn (qAdd conn [] a) b)

/-- `~q` (`Q.__invert__`): copy with the negation flag flipped. -/
def qNot : QTree → QTree
  | .node c n ch => .node c (!n) ch
  | .cond l v => .cond l v

mutual

/-- Parse tree produced by the Lark grammar after `?`-rule inlining: a
`lookup_statement` leaf carrying the `FIELD`/`OPERATOR`/`VALUE` token texts,
or an `or_expr`/`and_expr` node with at least two subexpression children
(single-child rules are inlined away by the leading `?`; the `AND`/`OR`
keyword tokens interleaved in the Lark children are not stored, mirroring the
transformer's `isinstance(arg, Q)` filter). -/
inductive PTree where
  | lookup (field op value : String)
  | and_ (children : PTreeList)
  | or_ (children : PTreeList)

/-- Children list of a parse-tree node. -/
inductive PTreeList where
  | nil
  | cons (t : PTree) (ts : PTreeList)

end

/-- Convert an ordinary list of parse trees into a children list. -/
def toPTreeList : List PTree → PTreeList
  | [] => .nil
  | t :: ts => .cons t (toPTreeList ts)

/-- Error raised inside the `try` block of `DjangoQueryParser.parse`:
a Lark lexing/parsing failure (diagnostics abstracted), or one of the two
`ValueError`s raised by `QueryTranslator.lookup_statement`. -/
inductive Err where
  | unexpectedInput
  | fieldNotAllowed (field : String)
  | unsupportedOp (op : String)
  deriving DecidableEq, Repr

/-- Message text of an inner error; the two `ValueError` messages match the
Python f-strings verbatim. -/
def renderErr : Err → String
  | .unexpectedInput => "unexpected input"
  | .fieldNotAllowed f => "Querying on field " ++ sq ++ f ++ sq ++ " is not allowed."
  | .unsupportedOp op => "Unsupported operator " ++ sq ++ op ++ sq ++ " in query."

/-- `QueryTranslator.OPERATOR_MAP` as a partial map (`dict.get`). -/
def opMap : String → Option String
  | ":" => some "exact"
  | ":=" => some "exact"
  | "~=" => some "icontains"
  | "!=" => some "exclude__exact"
  | ">" => some "gt"
  | "<" => some "lt"
  | ">=" => some "gte"
  | "<=" => some "lte"
  | _ => none

/-- `QueryTranslator.__init__`: `set(allowed_fields) if allowed_fields else
None` — a missing or empty (falsy) collection is stored as `None`, otherwise
the collection itself (a set; we keep the element list, membership being all
that is ever used). -/
def storedAllowed : Option (List String) → Option (List String)
  | none => none
  | some l => if l.isEmpty then none else some l

/-- The guard `if self.allowed_fields and field not in self.allowed_fields`:
blocks exactly when the stored collection is truthy (present and non-empty)
and the field is not a member. -/
def allowedBlocks (stored : Option (List String)) (field : String) : Bool :=
  match stored with
  | none => false
  | some l => !l.isEmpty && !l.contains field

/-- `QueryTranslator.lookup_statement`: coerce the value, apply the whitelist
guard, special-case `!=` into a negated exact lookup (using
`OPERATOR_MAP.get(':')`), otherwise build `Q(**{field__lookup: value})`,
rejecting operators outside the map. -/
def lookupStatement (stored : Option (List String)) (field op rawValue : String) :
    Except Err QTree :=
  let value := cleanValue rawValue
  if allowedBlocks stored field then
    .error (.fieldNotAllowed field)
  else if op == "!=" then
    .ok (qNot (qSingle (field ++ "__" ++ (opMap ":").getD "None") value))
  else
    match opMap op with
    | none => .error (.unsupportedOp op)
    | some lookupType => .ok (qSingle (field ++ "__" ++ lookupType) value)

/-- Combination loop shared by `QueryTranslator.or_expr` and `and_expr`: no
`Q` children give `Q()`, a single child is returned as is, several children
are folded with `|` / `&`. -/
def combineList (conn : Conn) : List QTree → QTree
  | [] => qEmpty
  | [q] => q
  | q :: rest => rest.foldl (qCombine conn) q

mutual

/-- `QueryTranslator.transform`: bottom-up replacement of parse-tree nodes,
`lookup_statement` leaves via `lookupStatement`, `and_expr`/`or_expr` nodes
via the combination loop over their transformed children. -/
def transform (stored : Option (List String)) : PTree → Except Err QTree
  | .lookup f op v => lookupStatement stored f op v
  | .and_ ch =>
      match transformList stored ch with
      | .error e => .error e
      | .ok qs => .ok (combineList .and_ qs)
  | .or_ ch =>
      match transformList stored ch with
      | .error e => .error e
      | .ok qs => .ok (combineList .or_ qs)

/-- Transform a children list left to right, stopping at the first error
(the Python exception unwinds the whole transform; the matches spell out the
`Except` bind). -/
def transformList (stored : Option (List String)) :
    PTreeList → Except Err (List QTree)
  | .nil => .ok []
  | .cons t ts =>
      match transform stored t with
      | .error e => .error e
      | .ok q =>
          match transformList stored ts with
          | .error e => .error e
          | .ok qs => .ok (q :: qs)

end

/-- Skip the ignored `WS` terminal between tokens. -/
def skipWs (cs : List Char) : List Char := cs.dropWhile isWsChar

/-- Literal prefix test (equivalent to `List.isPrefixOf`, written to recurse
on the pattern first). -/
def litStarts (pat cs : List Char) : Bool :=
  match pat with
  | [] => true
  | a :: as =>
      match cs with
      | [] => false
      | b :: bs => a == b && litStarts as bs

/-- Match a literal token text as a prefix of the input, returning the rest. -/
def matchLit (pat : List Char) (cs : List Char) : Option (List Char) :=
  if litStarts pat cs then some (cs.drop pat.length) else none

/-- Try a list of literal alternatives in order (regex alternation over
string literals: the first alternative that matches wins). -/
def matchFirst : List String → List Char → Option (String × List Char)
  | [], _ => none
  | p :: ps, cs =>
      match matchLit p.data cs with
      | some rest => some (p, rest)
      | none => matchFirst ps cs

/-- The `OPERATOR` terminal alternatives in grammar order. -/
def operatorStrings : List String :=
  [">=", "<=", ">", "<", ":=", ":", "~=", "!="]

/-- Scan the inside of an `ESCAPED_STRING` after the opening quote:
`/.*?/` up to the first unescaped closing quote (`.` does not match a
newline).  Returns the inner characters (escapes kept verbatim) and the rest
after the closing quote. -/
def scanEscapedInner : List Char → Option (List Char × List Char)
  | [] => none
  | '\\' :: c :: rest =>
      match scanEscapedInner rest with
      | some (inner, r) => some ('\\' :: c :: inner, r)
      | none => none
  | ['\\'] => none
  | '"' :: rest => some ([], rest)
  | '\n' :: _ => none
  | c :: rest =>
      match scanEscapedInner rest with
      | some (inner, r) => some (c :: inner, r)
      | none => none

/-- Match the `NUMBER` part of `SIGNED_NUMBER` (`FLOAT | INT` from Lark's
common grammar) as a regex would at the start of the input: greedy digit
runs, alternatives in source order.  Returns the matched characters and the
rest. -/
def matchNumber (l : List Char) : Option (List Char × List Char) :=
  match l with
  | [] => none
  | c :: r =>
    if c.isDigit then
      let ds := l.takeWhile Char.isDigit
      let r1 := l.dropWhile Char.isDigit
      match matchExp r1 with
      | some (ec, r2) => some (ds ++ ec, r2)  -- FLOAT: INT _EXP
      | none =>
          match r1 with
          | '.' :: r2 =>                       -- DECIMAL: INT "." INT?
              let ds2 := r2.takeWhile Char.isDigit
              let r3 := r2.dropWhile Char.isDigit
              match matchExp r3 with
              | some (ec, r4) => some (ds ++ '.' :: ds2 ++ ec, r4)
              | none => some (ds ++ '.' :: ds2, r3)
          | _ => some (ds, r1)                 -- NUMBER: INT
    else if c = '.' then
      -- only `DECIMAL: "." INT` can still match
      let ds2 := r.takeWhile Char.isDigit
      if ds2.isEmpty then none
      else
        let r3 := r.dropWhile Char.isDigit
        match matchExp r3 with
        | some (ec, r4) => some ('.' :: ds2 ++ ec, r4)
        | none => some ('.' :: ds2, r3)
    else none
where
  /-- Match `_EXP: ("e"|"E") SIGNED_INT` at the start of the input. -/
  matchExp : List Char → Option (List Char × List Char)
  | e :: r =>
      if e = 'e' || e = 'E' then
        match r with
        | s :: r1 =>
            if s = '+' || s = '-' then
              let ds := r1.takeWhile Char.isDigit
              if ds.isEmpty then none
              else some (e :: s :: ds, r1.dropWhile Char.isDigit)
            else
              let ds := r.takeWhile Char.isDigit
              if ds.isEmpty then none
              else some (e :: ds, r.dropWhile Char.isDigit)
        | [] => none
      else none
  | [] => none

/-- Match `SIGNED_NUMBER: ["+"|"-"] NUMBER` at the start of the input. -/
def matchSignedNumber (l : List Char) : Option (List Char × List Char) :=
  match l with
  | c :: r =>
      if c = '+' || c = '-' then
        match matchNumber r with
        | some (tok, rest) => some (c :: tok, rest)
        | none => none
      else matchNumber l
  | [] => none

/-- Lex one `VALUE` token at the start of the input: the terminal's
alternatives in source order (`ESCAPED_STRING | SIGNED_NUMBER |
UNQUOTED_VALUE | ...`; the keyword literals are subsumed by the earlier
`UNQUOTED_VALUE: /\w+/` alternative).  Returns the token text and the rest. -/
def scanValue (cs : List Char) : Option (String × List Char) :=
  match cs with
  | [] => none
  | c :: rest =>
      if c = '"' then
        match scanEscapedInner rest with
        | some (inner, r) => some (⟨'"' :: (inner ++ ['"'])⟩, r)
        | none => none
      else
        match matchSignedNumber cs with
        | some (tok, rest1) => some (⟨tok⟩, rest1)
        | none =>
            let w := cs.takeWhile isWordChar
            if w.isEmpty then none
            else some (⟨w⟩, cs.dropWhile isWordChar)

/-- Parse `lookup_statement: FIELD OPERATOR VALUE` with the contextual
tokenization the LALR lexer applies at this state (a `FIELD` is expected, so
a word run is lexed as the field).  The input must already start at the
field (whitespace skipped by the caller). -/
def parseLookup (cs : List Char) : Except Err (PTree × List Char) :=
  if (cs.takeWhile isWordChar).isEmpty then .error .unexpectedInput
  else
    match matchFirst operatorStrings (skipWs (cs.dropWhile isWordChar)) with
    | none => .error .unexpectedInput
    | some (op, cs2) =>
        match scanValue (skipWs cs2) with
        | none => .error .unexpectedInput
        | some (v, cs3) => .ok (.lookup ⟨cs.takeWhile isWordChar⟩ op v, cs3)

/-- Build the `and_expr` node, inlining a single child (the leading `?` of
the rule). -/
def collapseAnd : List PTree → PTree
  | [t] => t
  | ts => .and_ (toPTreeList ts)

/-- Build the `or_expr` node, inlining a single child. -/
def collapseOr : List PTree → PTree
  | [t] => t
  | ts => .or_ (toPTreeList ts)

mutual

/-- Parse `?comparison: term | "(" or_expr ")"` (with `?term:
lookup_statement` inlined).  Fuel decreases on every recursive call; the top
level supplies more than enough for any input. -/
def parseComparison : Nat → List Char → Except Err (PTree × List Char)
  | 0, _ => .error .unexpectedInput
  | n + 1, cs =>
      match skipWs cs with
      | '(' :: rest =>
          match parseOr n rest with
          | .error e => .error e
          | .ok (t, cs2) =>
              match skipWs cs2 with
              | ')' :: cs3 => .ok (t, cs3)
              | _ => .error .unexpectedInput
      | cs1 => parseLookup cs1

/-- Parse `?and_expr: comparison (AND comparison)*`. -/
def parseAnd : Nat → List Char → Except Err (PTree × List Char)
  | 0, _ => .error .unexpectedInput
  | n + 1, cs =>
      match parseComparison n cs with
      | .error e => .error e
      | .ok (t, cs1) => andRest n [t] cs1

/-- Iterate the `(AND comparison)*` tail, accumulating the comparisons; the
`AND` keyword terminal is matched exactly as `"AND" | "and"`. -/
def andRest : Nat → List PTree → List Char → Except Err (PTree × List Char)
  | 0, _, _ => .error .unexpectedInput
  | n + 1, acc, cs =>
      match matchFirst ["AND", "and"] (skipWs cs) with
      | none => .ok (collapseAnd acc, cs)
      | some (_, cs1) =>
          match parseComparison n cs1 with
          | .error e => .error e
          | .ok (t, cs2) => andRest n (acc ++ [t]) cs2

/-- Parse `?or_expr: and_expr (OR and_expr)*`. -/
def parseOr : Nat → List Char → Except Err (PTree × List Char)
  | 0, _ => .error .unexpectedInput
  | n + 1, cs =>
      match parseAnd n cs with
      | .error e => .error e
      | .ok (t, cs1) => orRest n [t] cs1

/-- Iterate the `(OR and_expr)*` tail; the `OR` keyword terminal is matched
exactly as `"OR" | "or"`. -/
def orRest : Nat → List PTree → List Char → Except Err (PTree × List Char)
  | 0, _, _ => .error .unexpectedInput
  | n + 1, acc, cs =>
      match matchFirst ["OR", "or"] (skipWs cs) with
      | none => .ok (collapseOr acc, cs)
      | some (_, cs1) =>
          match parseAnd n cs1 with
          | .error e => .error e
          | .ok (t, cs2) => orRest n (acc ++ [t]) cs2

end

/-- Run the grammar on a whole input: parse an `or_expr` from the start and
require only ignorable whitespace to remain. -/
def parseTop (cs : List Char) : Except Err PTree :=
  match parseOr (4 * cs.length + 8) cs with
  | .error e => .error e
  | .ok (t, rest) =>
      if (skipWs rest).isEmpty then .ok t else .error .unexpectedInput

/-- Body of the `try` block of `DjangoQueryParser.parse`: parse the string
into a tree, then transform it with a translator initialized from the
configured `allowed_fields`. -/
def parseAttempt (allowedFields : Option (List String)) (s : String) :
    Except Err QTree :=
  match parseTop s.data with
  | .error e => .error e
  | .ok t => transform (storedAllowed allowedFields) t

/-- Wrapped message of the `except` clause:
`ValueError(f"Invalid query string: {e}")`. -/
def invalidMsg (e : Err) : String := "Invalid query string: " ++ renderErr e

/-- `DjangoQueryParser.parse`: an empty query string returns `Q()` at once;
otherwise the parse/transform pipeline runs and any failure is re-raised as
the single wrapped `ValueError`. -/
def parse (allowedFields : Option (List String)) (s : String) :
    Except String QTree :=
  if s = "" then .ok qEmpty
  else
    match parseAttempt allowedFields s with
    | .ok q => .ok q
    | .error e => .error (invalidMsg e)

/-- Integer acceptance as the specification words it: an optional leading
minus sign followed by digits only.  Used solely to compare the
specification's description of the integer parse against the code's. -/
def specIntAccepts (s : String) : Bool :=
  match s.data with
  | '-' :: ds => !ds.isEmpty && ds.all Char.isDigit
  | ds => !ds.isEmpty && ds.all Char.isDigit

/-- Appending the separator and the lookup type in two steps equals the
fused literal. -/
theorem append_exact (s : String) : s ++ "__" ++ "exact" = s ++ "__exact" := by
  apply String.ext
  simp [String.data_append]

/-- C1: AND binds tighter than OR and parentheses override the precedence:
the unparenthesized mixed query yields the Or-rooted tree with the And
subtree as first child (never an And-rooted tree), and the parenthesized
variant yields the And-rooted tree with the Or subtree first. -/
theorem and_binds_tighter_than_or :
    parse none "a:1 AND b:2 OR c:3" =
      .ok (.node .or_ false
        [.node .and_ false [.cond "a__exact" (.int 1), .cond "b__exact" (.int 2)],
         .cond "c__exact" (.int 3)])
    ∧ (∀ (neg : Bool) (ch : List QTree),
        parse none "a:1 AND b:2 OR c:3" ≠ .ok (.node .and_ neg ch))
    ∧ parse none "(a:1 OR b:2) AND c:3" =
      .ok (.node .and_ false
        [.node .or_ false [.cond "a__exact" (.int 1), .cond "b__exact" (.int 2)],
         .cond "c__exact" (.int 3)]) := by
  refine ⟨rfl, ?_, rfl⟩
  intro neg ch h
  rw [show parse none "a:1 AND b:2 OR c:3" =
      .ok (.node .or_ false
        [.node .and_ false [.cond "a__exact" (.int 1), .cond "b__exact" (.int 2)],
         .cond "c__exact" (.int 3)]) from rfl] at h
  simp at h

/-- C8: the empty query string yields the neutral `Q()` for every whitelist
configuration (the code returns before tokenizing). -/
theorem empty_query_matches_all (allowedFields : Option (List String)) :
    parse allowedFields "" = .ok qEmpty := rfl

/-- C2 counterexample: with a present-but-empty `allowed_fields`, a lookup on
an arbitrary field succeeds, contradicting the claim that an empty whitelist
rejects every field. -/
theorem empty_whitelist_does_not_reject :
    parse (some []) "secret:1" =
      .ok (.node .and_ false [.cond "secret__exact" (.int 1)]) := rfl

/-- C2 amended: a present-but-empty `allowed_fields` collection is collapsed
to `None` by the constructor's truthiness test, so it behaves exactly like an
absent whitelist; and with an absent whitelist the lookup guard accepts every
field name. -/
theorem empty_whitelist_same_as_absent :
    (∀ s, parse (some []) s = parse none s)
    ∧ (∀ f v, lookupStatement none f ":" v =
        .ok (qSingle (f ++ "__exact") (cleanValue v))) := by
  constructor
  · intro s
    rfl
  · intro f v
    rw [show lookupStatement none f ":" v =
        .ok (qSingle (f ++ "__" ++ "exact") (cleanValue v)) from rfl,
      append_exact]

/-- C4 counterexample: the quoted raw text holding an escaped newline
sequence keeps the backslash-n verbatim — the quoted branch of
`_clean_value` does not unescape, contrary to the claim. -/
theorem quoted_value_not_unescaped :
    cleanValue "\"a\\nb\"" = .str "a\\nb"
    ∧ Value.str "a\\nb" ≠ Value.str "a\nb" := by
  exact ⟨rfl, by decide⟩

/-- C4 amended: a raw value that starts and ends with a double quote coerces
to a `String` with the surrounding quote characters stripped and the
remaining text kept verbatim (no escape processing); such quoted text is
never reinterpreted as a number, boolean or null. -/
theorem quoted_value_is_string :
    (∀ s, firstIsQuote s = true → lastIsQuote s = true →
        cleanValue s = .str (stripQuotes s))
    ∧ cleanValue "\"123\"" = .str "123"
    ∧ cleanValue "\"true\"" = .str "true"
    ∧ cleanValue "\"null\"" = .str "null" := by
  refine ⟨?_, rfl, rfl, rfl⟩
  intro s h1 h2
  simp [cleanValue, h1, h2]

/-- Witness for the amended C4 theorem at a concrete quoted input. -/
theorem quoted_value_is_string_witness :
    (firstIsQuote "\"John Doe\"" = true)
    ∧ (lastIsQuote "\"John Doe\"" = true)
    ∧ cleanValue "\"John Doe\"" = .str (stripQuotes "\"John Doe\"") :=
  ⟨by decide, by decide,
    quoted_value_is_string.1 "\"John Doe\"" (by decide) (by decide)⟩

/-- C5 counterexample: the raw text `+5` is rejected by the claim's integer
parse (optional minus sign followed by digits only), yet the code coerces it
with Python `int` to `Integer 5` — while Python `float` would also accept
it, so under the claim's order it would have become a `Float`. -/
theorem plus_sign_integer_counterexample :
    cleanValue "+5" = .int 5
    ∧ specIntAccepts "+5" = false
    ∧ pyFloatOK "+5" = true := by
  exact ⟨rfl, by decide, by decide⟩

/-- C5 amended: for an unquoted raw text the coercion tries, in order,
case-insensitive `true`/`false`/`null`, then Python `int` (optional `+` or
`-` sign, digits with single underscores between them, surrounding
whitespace tolerated), then Python `float`, and otherwise returns the text
as a string with `\n` and `\t` unescaped. -/
theorem unquoted_coercion_order (s : String)
    (hq : (firstIsQuote s && lastIsQuote s) = false) :
    (lowerStr s = "true" → cleanValue s = .bool true)
    ∧ (lowerStr s = "false" → cleanValue s = .bool false)
    ∧ (lowerStr s = "null" → cleanValue s = .null)
    ∧ (∀ n, lowerStr s ≠ "true" → lowerStr s ≠ "false" → lowerStr s ≠ "null" →
        pyInt s = some n → cleanValue s = .int n)
    ∧ (lowerStr s ≠ "true" → lowerStr s ≠ "false" → lowerStr s ≠ "null" →
        pyInt s = none → pyFloatOK s = true → cleanValue s = .float s)
    ∧ (lowerStr s ≠ "true" → lowerStr s ≠ "false" → lowerStr s ≠ "null" →
        pyInt s = none → pyFloatOK s = false →
        cleanValue s = .str (unescape s)) := by
  refine ⟨?_, ?_, ?_, ?_, ?_, ?_⟩
  · intro h; simp [cleanValue, hq, h]
  · intro h; simp [cleanValue, hq, h]
  · intro h; simp [cleanValue, hq, h]
  · intro n h1 h2 h3 h4; simp [cleanValue, hq, h1, h2, h3, h4]
  · intro h1 h2 h3 h4 h5; simp [cleanValue, hq, h1, h2, h3, h4, h5]
  · intro h1 h2 h3 h4 h5; simp [cleanValue, hq, h1, h2, h3, h4, h5]

/-- Witness for the amended C5 theorem: the unquoted text `1_0` is accepted
by Python `int` as ten (underscore between digits), and `7` shows the
integer branch firing before the float branch. -/
theorem unquoted_coercion_order_witness :
    ((firstIsQuote "1_0" && lastIsQuote "1_0") = false)
    ∧ cleanValue "1_0" = .int 10
    ∧ ((firstIsQuote "7" && lastIsQuote "7") = false)
    ∧ pyFloatOK "7" = true
    ∧ cleanValue "7" = .int 7 :=
  ⟨by decide,
    (unquoted_coercion_order "1_0" (by decide)).2.2.2.1 10
      (by decide) (by decide) (by decide) (by decide),
    by decide, by decide,
    (unquoted_coercion_order "7" (by decide)).2.2.2.1 7
      (by decide) (by decide) (by decide) (by decide)⟩

/-- C9 counterexample: a mixed-casing spelling of the AND keyword is not
lexed as the logical operator, so the query fails to parse instead of
yielding the conjunction the claim requires. -/
theorem mixed_case_keyword_rejected :
    parse none "a:1 aNd b:2" = .error "Invalid query string: unexpected input" := rfl

/-- C9 amended: the logical keywords are recognized exactly in their
all-uppercase and all-lowercase spellings; any other casing is not a keyword
and such a query fails to parse. -/
theorem keyword_casing :
    parse none "a:1 AND b:2" =
      .ok (.node .and_ false [.cond "a__exact" (.int 1), .cond "b__exact" (.int 2)])
    ∧ parse none "a:1 and b:2" =
      .ok (.node .and_ false [.cond "a__exact" (.int 1), .cond "b__exact" (.int 2)])
    ∧ parse none "a:1 OR b:2" =
      .ok (.node .or_ false [.cond "a__exact" (.int 1), .cond "b__exact" (.int 2)])
    ∧ parse none "a:1 or b:2" =
      .ok (.node .or_ false [.cond "a__exact" (.int 1), .cond "b__exact" (.int 2)])
    ∧ parse none "a:1 And b:2" = .error "Invalid query string: unexpected input"
    ∧ parse none "a:1 oR b:2" = .error "Invalid query string: unexpected input" :=
  ⟨rfl, rfl, rfl, rfl, rfl, rfl⟩

/-- C7: `parse` either returns a filter object or fails with the single
wrapped error string embedding the inner failure's message; and the two
malformed inputs from the specification (trailing keyword, unmatched
parenthesis) both fail that way. -/
theorem single_error_surface :
    (∀ (allowedFields : Option (List String)) (s : String),
      (∃ q, parse allowedFields s = .ok q)
      ∨ (∃ e, parseAttempt allowedFields s = .error e
          ∧ parse allowedFields s = .error ("Invalid query string: " ++ renderErr e)))
    ∧ parse none "status:active AND" = .error "Invalid query string: unexpected input"
    ∧ parse none "(status:active" = .error "Invalid query string: unexpected input" := by
  refine ⟨?_, rfl, rfl⟩
  intro af s
  by_cases hs : s = ""
  · subst hs
    exact Or.inl ⟨qEmpty, rfl⟩
  · cases h : parseAttempt af s with
    | ok q => exact Or.inl ⟨q, by simp [parse, hs, h]⟩
    | error e =>
        refine Or.inr ⟨e, rfl, ?_⟩
        simp [parse, hs, h, invalidMsg]

/-- A whitespace character is not a word character. -/
theorem ws_not_word {c : Char} (h : isWsChar c = true) : isWordChar c = false := by
  simp [isWsChar] at h
  rcases h with ((((h | h) | h) | h) | h) | h <;> subst h <;> decide

/-- A word character is not whitespace. -/
theorem word_not_ws {c : Char} (h : isWordChar c = true) : isWsChar c = false := by
  cases hws : isWsChar c
  · rfl
  · rw [ws_not_word hws] at h
    exact absurd h (by simp)

/-- A whitespace character is not a digit. -/
theorem ws_not_digit {c : Char} (h : isWsChar c = true) : c.isDigit = false := by
  simp [isWsChar] at h
  rcases h with ((((h | h) | h) | h) | h) | h <;> subst h <;> decide

/-- A digit is not whitespace. -/
theorem digit_not_ws {c : Char} (h : c.isDigit = true) : isWsChar c = false := by
  cases hws : isWsChar c
  · rfl
  · rw [ws_not_digit hws] at h
    exact absurd h (by simp)

/-- A digit is not an opening parenthesis. -/
theorem digit_ne_paren {c : Char} (h : c.isDigit = true) : c ≠ '(' := by
  intro he
  subst he
  exact absurd h (by decide)

/-- A word character is not an opening parenthesis. -/
theorem word_ne_paren {c : Char} (h : isWordChar c = true) : c ≠ '(' := by
  intro he
  subst he
  exact absurd h (by decide)

/-- Whitespace skipping stops at a non-whitespace head. -/
theorem skipWs_cons {c : Char} {cs : List Char} (h : isWsChar c = false) :
    skipWs (c :: cs) = c :: cs := by
  simp [skipWs, List.dropWhile_cons, h]

/-- `takeWhile` over an append whose left part all satisfies the predicate
and whose right part starts with a failing character. -/
theorem takeWhile_append_cons {p : Char → Bool} (l : List Char) (b : Char)
    (r : List Char) (hl : ∀ c ∈ l, p c = true) (hb : p b = false) :
    (l ++ b :: r).takeWhile p = l := by
  induction l with
  | nil => simp [List.takeWhile_cons, hb]
  | cons a l ih =>
      have ha : p a = true := hl a (by simp)
      simp only [List.cons_append, List.takeWhile_cons, ha, if_true]
      rw [ih (fun c hc => hl c (by simp [hc]))]

/-- `dropWhile` over the same split. -/
theorem dropWhile_append_cons {p : Char → Bool} (l : List Char) (b : Char)
    (r : List Char) (hl : ∀ c ∈ l, p c = true) (hb : p b = false) :
    (l ++ b :: r).dropWhile p = b :: r := by
  induction l with
  | nil => simp [List.dropWhile_cons, hb]
  | cons a l ih =>
      have ha : p a = true := hl a (by simp)
      simp only [List.cons_append, List.dropWhile_cons, ha, if_true]
      exact ih (fun c hc => hl c (by simp [hc]))

/-- A successful `NUMBER` match starts with a digit or a dot. -/
theorem matchNumber_head {c : Char} {cs : List Char} {x}
    (h : matchNumber (c :: cs) = some x) : c.isDigit = true ∨ c = '.' := by
  by_cases h1 : c.isDigit = true
  · exact Or.inl h1
  · by_cases h2 : c = '.'
    · exact Or.inr h2
    · rw [matchNumber] at h
      rw [if_neg (by simpa using h1), if_neg h2] at h
      exact absurd h (by simp)

/-- A successful `SIGNED_NUMBER` match starts with a sign, a digit or a
dot. -/
theorem matchSignedNumber_head {c : Char} {cs : List Char} {x}
    (h : matchSignedNumber (c :: cs) = some x) :
    c = '+' ∨ c = '-' ∨ c.isDigit = true ∨ c = '.' := by
  by_cases hs : (c = '+' || c = '-') = true
  · rcases (by simpa using hs : c = '+' ∨ c = '-') with h1 | h1
    · exact Or.inl h1
    · exact Or.inr (Or.inl h1)
  · rw [matchSignedNumber, if_neg (by simpa using hs)] at h
    rcases matchNumber_head h with h1 | h1
    · exact Or.inr (Or.inr (Or.inl h1))
    · exact Or.inr (Or.inr (Or.inr h1))

/-- The first character of a successfully scanned `VALUE` token is neither
whitespace nor an opening parenthesis. -/
theorem scanValue_head {c : Char} {cs : List Char} {x}
    (h : scanValue (c :: cs) = some x) :
    isWsChar c = false ∧ c ≠ '(' := by
  by_cases hq : c = '"'
  · subst hq
    exact ⟨by decide, by decide⟩
  · rw [scanValue, if_neg hq] at h
    cases hm : matchSignedNumber (c :: cs) with
    | some p =>
        rcases matchSignedNumber_head hm with h1 | h1 | h1 | h1
        · subst h1; exact ⟨by decide, by decide⟩
        · subst h1; exact ⟨by decide, by decide⟩
        · exact ⟨digit_not_ws h1, digit_ne_paren h1⟩
        · subst h1; exact ⟨by decide, by decide⟩
    | none =>
        rw [hm] at h
        by_cases hw : isWordChar c = true
        · exact ⟨word_not_ws hw, word_ne_paren hw⟩
        · rw [show ((c :: cs).takeWhile isWordChar) = [] by
              simp [List.takeWhile_cons, hw]] at h
          exact absurd h (by simp)

/-- One-step unfolding of `parseOr` at positive fuel. -/
theorem parseOr_succ (n : Nat) (cs : List Char) :
    parseOr (n + 1) cs =
      (match parseAnd n cs with
       | .error e => .error e
       | .ok (t, cs1) => orRest n [t] cs1) := rfl

/-- One-step unfolding of `parseAnd` at positive fuel. -/
theorem parseAnd_succ (n : Nat) (cs : List Char) :
    parseAnd (n + 1) cs =
      (match parseComparison n cs with
       | .error e => .error e
       | .ok (t, cs1) => andRest n [t] cs1) := rfl

/-- One-step unfolding of `parseComparison` at positive fuel. -/
theorem parseComparison_succ (n : Nat) (cs : List Char) :
    parseComparison (n + 1) cs =
      (match skipWs cs with
       | '(' :: rest =>
          match parseOr n rest with
          | .error e => .error e
          | .ok (t, cs2) =>
              match skipWs cs2 with
              | ')' :: cs3 => .ok (t, cs3)
              | _ => .error .unexpectedInput
       | cs1 => parseLookup cs1) := rfl

/-- One-step unfolding of `andRest` at positive fuel. -/
theorem andRest_succ (n : Nat) (acc : List PTree) (cs : List Char) :
    andRest (n + 1) acc cs =
      (match matchFirst ["AND", "and"] (skipWs cs) with
       | none => .ok (collapseAnd acc, cs)
       | some (_, cs1) =>
          match parseComparison n cs1 with
          | .error e => .error e
          | .ok (t, cs2) => andRest n (acc ++ [t]) cs2) := rfl

/-- One-step unfolding of `orRest` at positive fuel. -/
theorem orRest_succ (n : Nat) (acc : List PTree) (cs : List Char) :
    orRest (n + 1) acc cs =
      (match matchFirst ["OR", "or"] (skipWs cs) with
       | none => .ok (collapseOr acc, cs)
       | some (_, cs1) =>
          match parseAnd n cs1 with
          | .error e => .error e
          | .ok (t, cs2) => orRest n (acc ++ [t]) cs2) := rfl

/-- A query that is one whole lookup (word-initial input, the lookup parse
consuming everything up to `r`, and no following `AND`/`OR` keyword) makes
the full expression grammar return exactly that lookup. -/
theorem parseOr_single (m : Nat) (c : Char) (cs : List Char) (t : PTree)
    (r : List Char)
    (hc : isWordChar c = true)
    (hL : parseLookup (c :: cs) = .ok (t, r))
    (hA : matchFirst ["AND", "and"] (skipWs r) = none)
    (hO : matchFirst ["OR", "or"] (skipWs r) = none) :
    parseOr (m + 3) (c :: cs) = .ok (t, r) := by
  have h1 : parseComparison (m + 1) (c :: cs) = .ok (t, r) := by
    rw [parseComparison_succ, skipWs_cons (word_not_ws hc)]
    split
    · rename_i rest heq
      exact absurd (List.head_eq_of_cons_eq heq) (word_ne_paren hc)
    · exact hL
  have h2 : parseAnd (m + 2) (c :: cs) = .ok (t, r) := by
    show parseAnd ((m + 1) + 1) (c :: cs) = .ok (t, r)
    rw [parseAnd_succ, h1]
    show andRest (m + 1) [t] r = .ok (t, r)
    rw [andRest_succ, hA]
    rfl
  show parseOr ((m + 2) + 1) (c :: cs) = .ok (t, r)
  rw [parseOr_succ, h2]
  show orRest (m + 2) [t] r = .ok (t, r)
  show orRest ((m + 1) + 1) [t] r = .ok (t, r)
  rw [orRest_succ, hO]
  rfl

/-- The `OPERATOR` terminal on an input starting with the exclusation-equals
pair always lexes `!=`. -/
theorem matchFirst_bang (rest : List Char) :
    matchFirst operatorStrings ('!' :: '=' :: rest) = some ("!=", rest) := rfl

/-- C3: for every valid field token and every complete value token, parsing
the single lookup `f!=v` yields the negated exact-equality `Q` object on the
coerced value (a `NOT` of `field__exact`), regardless of the value's shape. -/
theorem bang_eq_builds_negated_exact (f v : String)
    (hf1 : f.data.isEmpty = false)
    (hf2 : f.data.all isWordChar = true)
    (hv : scanValue v.data = some (v, [])) :
    parse none (f ++ "!=" ++ v) =
      .ok (.node .and_ true [.cond (f ++ "__exact") (cleanValue v)]) := by
  have hfw : ∀ c ∈ f.data, isWordChar c = true := by
    intro c hc
    exact List.all_eq_true.mp hf2 c hc
  have hvne : v.data ≠ [] := by
    intro h
    rw [h] at hv
    exact absurd hv (by simp [scanValue])
  have hskv : skipWs v.data = v.data := by
    cases hvd : v.data with
    | nil => exact absurd hvd hvne
    | cons d ds =>
        rw [hvd] at hv
        exact skipWs_cons (scanValue_head hv).1
  have hdata : (f ++ "!=" ++ v).data = f.data ++ '!' :: '=' :: v.data := by
    rw [String.data_append, String.data_append, List.append_assoc]
    rfl
  have ht : (f.data ++ '!' :: '=' :: v.data).takeWhile isWordChar = f.data :=
    takeWhile_append_cons _ _ _ hfw (by decide)
  have hdr : (f.data ++ '!' :: '=' :: v.data).dropWhile isWordChar =
      '!' :: '=' :: v.data :=
    dropWhile_append_cons _ _ _ hfw (by decide)
  have hsk1 : skipWs ('!' :: '=' :: v.data) = '!' :: '=' :: v.data :=
    skipWs_cons (by decide)
  have hL : parseLookup (f.data ++ '!' :: '=' :: v.data) =
      .ok (.lookup f "!=" v, []) := by
    simp only [parseLookup, ht, hdr, hf1, hsk1, matchFirst_bang, hskv, hv,
      Bool.false_eq_true, if_false]
  obtain ⟨cf, csf, hfd⟩ : ∃ cf csf, f.data = cf :: csf := by
    cases hfd : f.data with
    | nil => rw [hfd] at hf1; exact absurd hf1 (by decide)
    | cons cf csf => exact ⟨cf, csf, rfl⟩
  have hcf : isWordChar cf = true := hfw cf (by rw [hfd]; simp)
  have hne : f ++ "!=" ++ v ≠ "" := by
    intro h
    have : (f ++ "!=" ++ v).data = [] := by rw [h]
    rw [hdata, hfd] at this
    exact absurd this (by simp)
  have hparsed : parseTop (f ++ "!=" ++ v).data = .ok (.lookup f "!=" v) := by
    obtain ⟨m, hm⟩ : ∃ m, 4 * (f.data ++ '!' :: '=' :: v.data).length + 8 = m + 3 :=
      ⟨4 * (f.data ++ '!' :: '=' :: v.data).length + 5, by omega⟩
    have hOr : parseOr (m + 3) (cf :: (csf ++ '!' :: '=' :: v.data)) =
        .ok (.lookup f "!=" v, []) :=
      parseOr_single m cf _ _ _ hcf
        (by rw [← List.cons_append, ← hfd]; exact hL) rfl rfl
    rw [parseTop, hdata, hm, hfd, List.cons_append, hOr]
    rfl
  rw [parse, if_neg hne, parseAttempt, hparsed]
  show (match transform (storedAllowed none) (.lookup f "!=" v) with
        | .ok q => (.ok q : Except String QTree)
        | .error e => .error (invalidMsg e)) = _
  rw [show transform (storedAllowed none) (.lookup f "!=" v) =
      .ok (.node .and_ true [.cond (f ++ "__" ++ "exact") (cleanValue v)]) from rfl]
  rw [append_exact]

/-- Witness for C3 at the concrete lookup `x!=5`. -/
theorem bang_eq_builds_negated_exact_witness :
    ("x".data.isEmpty = false)
    ∧ ("x".data.all isWordChar = true)
    ∧ scanValue "5".data = some ("5", [])
    ∧ parse none ("x" ++ "!=" ++ "5") =
        .ok (.node .and_ true [.cond ("x" ++ "__exact") (cleanValue "5")]) :=
  ⟨by decide, by decide, by decide,
    bang_eq_builds_negated_exact "x" "5" (by decide) (by decide) (by decide)⟩

/-- The operator token texts the grammar can produce. -/
def validOp (op : String) : Bool := operatorStrings.contains op

mutual

/-- Every lookup operator in the tree is one the grammar's `OPERATOR`
terminal can produce. -/
def opsValid : PTree → Bool
  | .lookup _ op _ => validOp op
  | .and_ ch => opsValidList ch
  | .or_ ch => opsValidList ch

/-- List version of `opsValid`. -/
def opsValidList : PTreeList → Bool
  | .nil => true
  | .cons t ts => opsValid t && opsValidList ts

end

mutual

/-- All field names referenced by the lookups of a parse tree. -/
def collectFields : PTree → List String
  | .lookup f _ _ => [f]
  | .and_ ch => collectFieldsList ch
  | .or_ ch => collectFieldsList ch

/-- List version of `collectFields`. -/
def collectFieldsList : PTreeList → List String
  | .nil => []
  | .cons t ts => collectFields t ++ collectFieldsList ts

end

/-- A valid operator is one of the eight literals. -/
theorem validOp_cases {op : String} (h : validOp op = true) :
    op = ">=" ∨ op = "<=" ∨ op = ">" ∨ op = "<" ∨ op = ":=" ∨ op = ":"
      ∨ op = "~=" ∨ op = "!=" := by
  have hm : op ∈ operatorStrings := List.mem_of_elem_eq_true h
  simpa [operatorStrings, List.mem_cons] using hm

/-- Every valid operator has an entry in the operator map. -/
theorem validOp_isSome {op : String} (h : validOp op = true) :
    (opMap op).isSome = true := by
  rcases validOp_cases h with h1 | h1 | h1 | h1 | h1 | h1 | h1 | h1 <;>
    subst h1 <;> rfl

/-- When the whitelist guard fires, the looked-up field is not a member. -/
theorem allowedBlocks_contains {wl : List String} {f : String}
    (h : allowedBlocks (some wl) f = true) : wl.contains f = false := by
  simp [allowedBlocks] at h
  simpa using h.2

/-- A failing `lookup_statement` on a grammar-producible operator always
fails with the field-not-allowed error, on a field outside the whitelist. -/
theorem lookupStatement_error_shape {wl : List String} {f op v : String} {e : Err}
    (hop : validOp op = true)
    (h : lookupStatement (some wl) f op v = .error e) :
    ∃ g, e = .fieldNotAllowed g ∧ wl.contains g = false := by
  by_cases hb : allowedBlocks (some wl) f = true
  · refine ⟨f, ?_, allowedBlocks_contains hb⟩
    rw [lookupStatement] at h
    rw [if_pos hb] at h
    exact (Except.error.inj h).symm
  · exfalso
    rw [lookupStatement, if_neg hb] at h
    by_cases hbe : (op == "!=") = true
    · rw [if_pos hbe] at h
      exact absurd h (by simp)
    · rw [if_neg hbe] at h
      obtain ⟨lt, h1⟩ := Option.isSome_iff_exists.mp (validOp_isSome hop)
      rw [h1] at h
      exact absurd h (by simp)

/-- When the whitelist is non-empty and the field is not a member, the
lookup fails with exactly the field-not-allowed error. -/
theorem lookupStatement_blocks {wl : List String} {f op v : String}
    (hwl : wl ≠ []) (hf : wl.contains f = false) :
    lookupStatement (some wl) f op v = .error (.fieldNotAllowed f) := by
  have hb : allowedBlocks (some wl) f = true := by
    cases wl with
    | nil => exact absurd rfl hwl
    | cons w ws =>
        show (!(List.isEmpty (w :: ws)) && !((w :: ws).contains f)) = true
        rw [hf]
        rfl
  rw [lookupStatement, if_pos hb]

/-- `matchFirst` only returns alternatives from its list. -/
theorem matchFirst_mem {ps : List String} {cs : List Char} {p : String}
    {r : List Char} (h : matchFirst ps cs = some (p, r)) :
    ps.contains p = true := by
  induction ps with
  | nil => simp [matchFirst] at h
  | cons p0 ps ih =>
      rw [matchFirst] at h
      cases hm : matchLit p0.data cs with
      | some rest =>
          rw [hm] at h
          obtain ⟨rfl, rfl⟩ : p0 = p ∧ rest = r := by
            constructor <;> [exact (Prod.mk.injEq .. ▸ Option.some.inj h).1;
              exact (Prod.mk.injEq .. ▸ Option.some.inj h).2]
          simp [List.contains_cons]
      | none =>
          rw [hm] at h
          have h2 : matchFirst ps cs = some (p, r) := h
          have h3 : ps.contains p = true := ih h2
          simp [List.contains_cons] at h3 ⊢
          exact Or.inr h3

/-- A successfully parsed lookup statement carries a grammar operator. -/
theorem parseLookup_ops {cs : List Char} {t : PTree} {r : List Char}
    (h : parseLookup cs = .ok (t, r)) : opsValid t = true := by
  rw [parseLookup] at h
  split at h
  · exact absurd h (by simp)
  · split at h
    · exact absurd h (by simp)
    · rename_i op cs2 heq
      split at h
      · exact absurd h (by simp)
      · rename_i v cs3 _
        obtain ⟨rfl, rfl⟩ : PTree.lookup _ op v = t ∧ cs3 = r := by
          constructor <;> [exact (Prod.mk.injEq .. ▸ Except.ok.inj h).1;
            exact (Prod.mk.injEq .. ▸ Except.ok.inj h).2]
        exact matchFirst_mem heq

/-- Unfolding of `transform` on an `and_expr` node. -/
theorem transform_and (st : Option (List String)) (ch : PTreeList) :
    transform st (.and_ ch) =
      (match transformList st ch with
       | .error e => .error e
       | .ok qs => .ok (combineList .and_ qs)) := rfl

/-- Unfolding of `transform` on an `or_expr` node. -/
theorem transform_or (st : Option (List String)) (ch : PTreeList) :
    transform st (.or_ ch) =
      (match transformList st ch with
       | .error e => .error e
       | .ok qs => .ok (combineList .or_ qs)) := rfl

/-- Unfolding of `transformList` on a non-empty children list. -/
theorem transformList_cons (st : Option (List String)) (t : PTree)
    (ts : PTreeList) :
    transformList st (.cons t ts) =
      (match transform st t with
       | .error e => .error e
       | .ok q =>
          match transformList st ts with
          | .error e => .error e
          | .ok qs => .ok (q :: qs)) := rfl

mutual

/-- A failing transform over a tree whose operators all come from the
grammar fails with a field-not-allowed error on a non-whitelisted field. -/
theorem transform_error_shape (t : PTree) (wl : List String) (e : Err)
    (hops : opsValid t = true)
    (h : transform (some wl) t = .error e) :
    ∃ g, e = .fieldNotAllowed g ∧ wl.contains g = false := by
  cases t with
  | lookup f op v =>
      exact lookupStatement_error_shape (by simpa [opsValid] using hops) h
  | and_ ch =>
      rw [transform_and] at h
      cases hl : transformList (some wl) ch with
      | ok qs =>
          rw [hl] at h
          exact absurd h (by simp)
      | error e1 =>
          rw [hl] at h
          have he : e1 = e := Except.error.inj h
          subst he
          exact transformList_error_shape ch wl e1 (by simpa [opsValid] using hops) hl
  | or_ ch =>
      rw [transform_or] at h
      cases hl : transformList (some wl) ch with
      | ok qs =>
          rw [hl] at h
          exact absurd h (by simp)
      | error e1 =>
          rw [hl] at h
          have he : e1 = e := Except.error.inj h
          subst he
          exact transformList_error_shape ch wl e1 (by simpa [opsValid] using hops) hl

/-- List version of `transform_error_shape`. -/
theorem transformList_error_shape (ts : PTreeList) (wl : List String) (e : Err)
    (hops : opsValidList ts = true)
    (h : transformList (some wl) ts = .error e) :
    ∃ g, e = .fieldNotAllowed g ∧ wl.contains g = false := by
  cases ts with
  | nil => exact absurd h (by simp [transformList])
  | cons t ts1 =>
      have hsplit : opsValid t = true ∧ opsValidList ts1 = true := by
        simpa [opsValidList] using hops
      rw [transformList_cons] at h
      cases ht : transform (some wl) t with
      | error e1 =>
          rw [ht] at h
          have he : e1 = e := Except.error.inj h
          subst he
          exact transform_error_shape t wl e1 hsplit.1 ht
      | ok q =>
          rw [ht] at h
          cases hl : transformList (some wl) ts1 with
          | error e2 =>
              rw [hl] at h
              have he : e2 = e := Except.error.inj h
              subst he
              exact transformList_error_shape ts1 wl e2 hsplit.2 hl
          | ok qs =>
              rw [hl] at h
              exact absurd h (by simp)

end

mutual

/-- A tree containing a lookup on a field outside the non-empty whitelist
transforms to a field-not-allowed error on some non-whitelisted field. -/
theorem transform_offender (t : PTree) (wl : List String) (f : String)
    (hops : opsValid t = true) (hwl : wl ≠ [])
    (hf : f ∈ collectFields t) (hfn : wl.contains f = false) :
    ∃ g, wl.contains g = false ∧
      transform (some wl) t = .error (.fieldNotAllowed g) := by
  cases t with
  | lookup f0 op v =>
      have he : f = f0 := by simpa [collectFields] using hf
      subst he
      refine ⟨f, hfn, ?_⟩
      show lookupStatement (some wl) f op v = _
      exact lookupStatement_blocks hwl hfn
  | and_ ch =>
      have hf2 : f ∈ collectFieldsList ch := by simpa [collectFields] using hf
      obtain ⟨g, hg, herr⟩ :=
        transformList_offender ch wl f (by simpa [opsValid] using hops) hwl hf2 hfn
      exact ⟨g, hg, by rw [transform_and, herr]⟩
  | or_ ch =>
      have hf2 : f ∈ collectFieldsList ch := by simpa [collectFields] using hf
      obtain ⟨g, hg, herr⟩ :=
        transformList_offender ch wl f (by simpa [opsValid] using hops) hwl hf2 hfn
      exact ⟨g, hg, by rw [transform_or, herr]⟩

/-- List version of `transform_offender`. -/
theorem transformList_offender (ts : PTreeList) (wl : List String) (f : String)
    (hops : opsValidList ts = true) (hwl : wl ≠ [])
    (hf : f ∈ collectFieldsList ts) (hfn : wl.contains f = false) :
    ∃ g, wl.contains g = false ∧
      transformList (some wl) ts = .error (.fieldNotAllowed g) := by
  cases ts with
  | nil => exact absurd hf (by simp [collectFieldsList])
  | cons t ts1 =>
      have hsplit : opsValid t = true ∧ opsValidList ts1 = true := by
        simpa [opsValidList] using hops
      rcases List.mem_append.mp (by simpa [collectFieldsList] using hf) with hmem | hmem
      · obtain ⟨g, hg, herr⟩ := transform_offender t wl f hsplit.1 hwl hmem hfn
        exact ⟨g, hg, by rw [transformList_cons, herr]⟩
      · cases ht : transform (some wl) t with
        | error e1 =>
            obtain ⟨g, hg1, hg2⟩ := transform_error_shape t wl e1 hsplit.1 ht
            subst hg1
            exact ⟨g, hg2, by rw [transformList_cons, ht]⟩
        | ok q =>
            obtain ⟨g, hg, herr⟩ :=
              transformList_offender ts1 wl f hsplit.2 hwl hmem hfn
            exact ⟨g, hg, by rw [transformList_cons, ht, herr]⟩

end

/-- `opsValidList` over a converted plain list. -/
theorem opsValidList_toList {l : List PTree}
    (h : ∀ u ∈ l, opsValid u = true) :
    opsValidList (toPTreeList l) = true := by
  induction l with
  | nil => rfl
  | cons t ts ih =>
      show (opsValid t && opsValidList (toPTreeList ts)) = true
      rw [h t (by simp), ih (fun u hu => h u (by simp [hu]))]
      rfl

/-- `collapseAnd` preserves operator validity. -/
theorem collapseAnd_ops {l : List PTree}
    (h : ∀ u ∈ l, opsValid u = true) :
    opsValid (collapseAnd l) = true := by
  match l with
  | [t] => exact h t (by simp)
  | [] => rfl
  | t1 :: t2 :: ts =>
      show opsValidList (toPTreeList (t1 :: t2 :: ts)) = true
      exact opsValidList_toList h

/-- `collapseOr` preserves operator validity. -/
theorem collapseOr_ops {l : List PTree}
    (h : ∀ u ∈ l, opsValid u = true) :
    opsValid (collapseOr l) = true := by
  match l with
  | [t] => exact h t (by simp)
  | [] => rfl
  | t1 :: t2 :: ts =>
      show opsValidList (toPTreeList (t1 :: t2 :: ts)) = true
      exact opsValidList_toList h

/-- Every tree the fueled grammar parser returns, at any level and for any
accumulator of already-valid trees, uses only grammar operators. -/
theorem parsers_opsValid (n : Nat) :
    (∀ cs t r, parseComparison n cs = .ok (t, r) → opsValid t = true)
    ∧ (∀ cs t r, parseAnd n cs = .ok (t, r) → opsValid t = true)
    ∧ (∀ acc cs t r, (∀ u ∈ acc, opsValid u = true) →
        andRest n acc cs = .ok (t, r) → opsValid t = true)
    ∧ (∀ cs t r, parseOr n cs = .ok (t, r) → opsValid t = true)
    ∧ (∀ acc cs t r, (∀ u ∈ acc, opsValid u = true) →
        orRest n acc cs = .ok (t, r) → opsValid t = true) := by
  induction n with
  | zero =>
      refine ⟨?_, ?_, ?_, ?_, ?_⟩
      · intro cs t r h
        exact absurd h (by simp [parseComparison])
      · intro cs t r h
        exact absurd h (by simp [parseAnd])
      · intro acc cs t r _ h
        exact absurd h (by simp [andRest])
      · intro cs t r h
        exact absurd h (by simp [parseOr])
      · intro acc cs t r _ h
        exact absurd h (by simp [orRest])
  | succ n ih =>
      obtain ⟨ihC, ihA, ihAR, ihO, ihOR⟩ := ih
      refine ⟨?_, ?_, ?_, ?_, ?_⟩
      · intro cs t r h
        rw [parseComparison_succ] at h
        split at h
        · split at h
          · exact absurd h (by simp)
          · rename_i t0 cs2 heq
            split at h
            · obtain ⟨he, _⟩ : t0 = t ∧ _ = r := by
                constructor <;> [exact (Prod.mk.injEq .. ▸ Except.ok.inj h).1;
                  exact (Prod.mk.injEq .. ▸ Except.ok.inj h).2]
              subst he
              exact ihO _ _ _ heq
            · exact absurd h (by simp)
        · exact parseLookup_ops h
      · intro cs t r h
        rw [parseAnd_succ] at h
        split at h
        · exact absurd h (by simp)
        · rename_i t0 cs1 heq
          exact ihAR [t0] cs1 t r
            (by intro u hu; rw [List.mem_singleton.mp hu]; exact ihC _ _ _ heq) h
      · intro acc cs t r hacc h
        rw [andRest_succ] at h
        split at h
        · obtain ⟨he, _⟩ : collapseAnd acc = t ∧ cs = r := by
            constructor <;> [exact (Prod.mk.injEq .. ▸ Except.ok.inj h).1;
              exact (Prod.mk.injEq .. ▸ Except.ok.inj h).2]
          subst he
          exact collapseAnd_ops hacc
        · split at h
          · exact absurd h (by simp)
          · rename_i t1 cs2 heq
            refine ihAR (acc ++ [t1]) cs2 t r ?_ h
            intro u hu
            rcases List.mem_append.mp hu with hu1 | hu1
            · exact hacc u hu1
            · rw [List.mem_singleton.mp hu1]
              exact ihC _ _ _ heq
      · intro cs t r h
        rw [parseOr_succ] at h
        split at h
        · exact absurd h (by simp)
        · rename_i t0 cs1 heq
          exact ihOR [t0] cs1 t r
            (by intro u hu; rw [List.mem_singleton.mp hu]; exact ihA _ _ _ heq) h
      · intro acc cs t r hacc h
        rw [orRest_succ] at h
        split at h
        · obtain ⟨he, _⟩ : collapseOr acc = t ∧ cs = r := by
            constructor <;> [exact (Prod.mk.injEq .. ▸ Except.ok.inj h).1;
              exact (Prod.mk.injEq .. ▸ Except.ok.inj h).2]
          subst he
          exact collapseOr_ops hacc
        · split at h
          · exact absurd h (by simp)
          · rename_i t1 cs2 heq
            refine ihOR (acc ++ [t1]) cs2 t r ?_ h
            intro u hu
            rcases List.mem_append.mp hu with hu1 | hu1
            · exact hacc u hu1
            · rw [List.mem_singleton.mp hu1]
              exact ihA _ _ _ heq

/-- Any tree returned by the whole-input parse uses only grammar
operators. -/
theorem parseTop_ops {cs : List Char} {t : PTree}
    (h : parseTop cs = .ok t) : opsValid t = true := by
  rw [parseTop] at h
  split at h
  · exact absurd h (by simp)
  · rename_i t0 rest heq
    split at h
    · exact (Except.ok.inj h) ▸ (parsers_opsValid _).2.2.2.1 _ _ _ heq
    · exact absurd h (by simp)

/-- C6: with a non-empty whitelist configured, a query that parses to a tree
containing a lookup on a field outside the whitelist always fails, with the
wrapped field-not-allowed error naming a non-whitelisted field — other
allowed lookups in the same query notwithstanding. -/
theorem whitelist_rejects_disallowed_field (wl : List String) (s : String)
    (t : PTree) (f : String)
    (hwl : wl ≠ [])
    (hparse : parseTop s.data = .ok t)
    (hf : f ∈ collectFields t)
    (hfn : wl.contains f = false) :
    ∃ g, wl.contains g = false ∧
      parse (some wl) s = .error (invalidMsg (.fieldNotAllowed g)) := by
  have hops := parseTop_ops hparse
  have hsne : s ≠ "" := by
    intro he
    subst he
    rw [show parseTop ("" : String).data = .error .unexpectedInput from rfl] at hparse
    exact absurd hparse (by simp)
  have hst : storedAllowed (some wl) = some wl := by
    cases wl with
    | nil => exact absurd rfl hwl
    | cons w ws => rfl
  obtain ⟨g, hg, herr⟩ := transform_offender t wl f hops hwl hf hfn
  refine ⟨g, hg, ?_⟩
  rw [parse, if_neg hsne, parseAttempt, hparse]
  show (match transform (storedAllowed (some wl)) t with
        | .ok q => (.ok q : Except String QTree)
        | .error e => .error (invalidMsg e)) = _
  rw [hst, herr]

/-- Witness for C6: with whitelist `status`, both `secret:1` and
`status:1 AND secret:1` are rejected with the field-not-allowed error. -/
theorem whitelist_rejects_disallowed_field_witness :
    ((["status"] : List String) ≠ []
      ∧ parseTop "secret:1".data = .ok (.lookup "secret" ":" "1")
      ∧ "secret" ∈ collectFields (.lookup "secret" ":" "1")
      ∧ (["status"] : List String).contains "secret" = false
      ∧ ∃ g, (["status"] : List String).contains g = false ∧
          parse (some ["status"]) "secret:1" =
            .error (invalidMsg (.fieldNotAllowed g)))
    ∧ (parseTop "status:1 AND secret:1".data =
        .ok (.and_ (.cons (.lookup "status" ":" "1")
          (.cons (.lookup "secret" ":" "1") .nil)))
      ∧ "secret" ∈ collectFields (.and_ (.cons (.lookup "status" ":" "1")
          (.cons (.lookup "secret" ":" "1") .nil)))
      ∧ ∃ g, (["status"] : List String).contains g = false ∧
          parse (some ["status"]) "status:1 AND secret:1" =
            .error (invalidMsg (.fieldNotAllowed g))) :=
  ⟨⟨by decide, rfl, by decide, by decide,
      whitelist_rejects_disallowed_field ["status"] "secret:1"
        (.lookup "secret" ":" "1") "secret" (by decide) rfl (by decide) (by decide)⟩,
    rfl, by decide,
    whitelist_rejects_disallowed_field ["status"] "status:1 AND secret:1"
      (.and_ (.cons (.lookup "status" ":" "1")
        (.cons (.lookup "secret" ":" "1") .nil))) "secret"
      (by decide) rfl (by decide) (by decide)⟩

end DjangoQueryParser
